import Mathlib

/-!
Verification of the MPEG-2 transport-stream demultiplexer core
(`src/demultiplex.rs`): a shallow embedding of the filter table, the
filter changeset, the PAT/PMT table processors and the packet dispatch
loop, together with theorems settling the specification claims.

Conventions of the embedding:
* bytes are natural numbers (values 0–255 in practice); byte slices are
  `List Byte`;
* Rust panics (out-of-range slicing, explicit aborts) are modelled by
  `Option`: `none` means the computation aborts;
* `println!` logging is side-effect free and is not modelled;
* handler types are abstract: the embedding is parametric in the
  packet-filter type `F` and the stream-constructor state `C`, with the
  behaviour of `consume` and `construct` supplied as explicit functions.
-/

/-- Bytes are modelled as natural numbers. -/
abbrev Byte := Nat

/-- Modelled from the spec: module `packet` is not under src/.  Spec §6:
TS packets are fixed-size, 188 bytes. -/
def PACKET_SIZE : Nat := 188

/-- Modelled from the spec: `packet::Packet::is_sync_byte`; spec §6: the
first byte of a packet is the sync byte 0x47. -/
def Packet.is_sync_byte (b : Byte) : Bool := b == 0x47

/-- Modelled from the spec: `packet::Packet::pid`; spec §6: the 13-bit PID
is bits 5..0 of byte 1 followed by byte 2. -/
def Packet.pid (pk : List Byte) : Nat := pk.getD 1 0 % 32 * 256 + pk.getD 2 0

/-- The 188-byte window of `buf` starting at offset `i` (the `&buf[i..end]`
slice taken by `Demultiplex::push`). -/
def tsChunk (buf : List Byte) (i : Nat) : List Byte := (buf.drop i).take PACKET_SIZE

/-- The whole 188-byte packets contained in a buffer, in order (a trailing
partial packet is ignored). -/
def tsChunks (buf : List Byte) : List (List Byte) :=
  if h : buf.length < PACKET_SIZE then []
  else buf.take PACKET_SIZE :: tsChunks (buf.drop PACKET_SIZE)
termination_by buf.length
decreasing_by
  simp only [List.length_drop, PACKET_SIZE] at *
  omega

/-- The subsequence of a buffer's whole 188-byte packets whose PID is `p`,
in source order. -/
def pidChunks (p : Nat) (buf : List Byte) : List (List Byte) :=
  (tsChunks buf).filter (fun c => Packet.pid c == p)

/-! ### Filter table (`Filters<F>`) -/

/-- `Filters`: the PID → handler routing table; a dense vector of optional
handlers indexed by PID. -/
structure Filters (F : Type) where
  filters_by_pid : List (Option F)

variable {F C : Type}

/-- `Filters::new`. -/
def Filters.new : Filters F := ⟨[]⟩

/-- `Filters::contains`. -/
def Filters.contains (s : Filters F) (pid : Nat) : Bool :=
  decide (pid < s.filters_by_pid.length) && (s.filters_by_pid.getD pid none).isSome

/-- `Filters::get` (the stored entry; `as_mut` is identity in a value
semantics). -/
def Filters.get (s : Filters F) (pid : Nat) : Option F :=
  if s.filters_by_pid.length ≤ pid then none
  else s.filters_by_pid.getD pid none

/-- `Filters::insert`: when `pid` is at or beyond the current length, `diff+1`
`None` entries are pushed first (bringing the length to `pid+1`), then slot
`pid` is overwritten. -/
def Filters.insert (s : Filters F) (pid : Nat) (filter : F) : Filters F :=
  ⟨(s.filters_by_pid ++ List.replicate (pid + 1 - s.filters_by_pid.length) none).set
      pid (some filter)⟩

/-- `Filters::remove`. -/
def Filters.remove (s : Filters F) (pid : Nat) : Filters F :=
  if pid < s.filters_by_pid.length then ⟨s.filters_by_pid.set pid none⟩ else s

/-- `Filters::pids`. -/
def Filters.pids (s : Filters F) : List Nat :=
  s.filters_by_pid.enum.filterMap (fun e => if e.2.isSome then some e.1 else none)

/-! ### Filter changeset (`FilterChange<F>`, `FilterChangeset<F>`) -/

/-- `FilterChange`: a single deferred routing edit. -/
inductive FilterChange (F : Type) where
  | Insert : Nat → F → FilterChange F
  | Remove : Nat → FilterChange F

/-- `FilterChange::apply`: dispatch one edit to the filter table's own
`insert`/`remove`. -/
def FilterChange.apply (c : FilterChange F) (filters : Filters F) : Filters F :=
  match c with
  | .Insert pid f => filters.insert pid f
  | .Remove pid => filters.remove pid

/-- `FilterChangeset`: the append-only log of deferred edits. -/
structure FilterChangeset (F : Type) where
  updates : List (FilterChange F)

/-- `FilterChangeset::new`. -/
def FilterChangeset.new : FilterChangeset F := ⟨[]⟩

/-- `FilterChangeset::insert` (enqueue an `Insert` edit). -/
def FilterChangeset.insert (cs : FilterChangeset F) (pid : Nat) (filter : F) :
    FilterChangeset F :=
  ⟨cs.updates ++ [FilterChange.Insert pid filter]⟩

/-- `FilterChangeset::remove` (enqueue a `Remove` edit). -/
def FilterChangeset.remove (cs : FilterChangeset F) (pid : Nat) : FilterChangeset F :=
  ⟨cs.updates ++ [FilterChange.Remove pid]⟩

/-- `FilterChangeset::is_empty`. -/
def FilterChangeset.is_empty (cs : FilterChangeset F) : Bool := cs.updates.isEmpty

/-- The `for update in self.updates.drain(..)` loop body of
`FilterChangeset::apply`. -/
def FilterChangeset.applyLoop : List (FilterChange F) → Filters F → Filters F
  | [], filters => filters
  | u :: rest, filters => FilterChangeset.applyLoop rest (u.apply filters)

/-- `FilterChangeset::apply`: drains the log (leaving it empty) and applies
each edit, in enqueue order, to the filter table. -/
def FilterChangeset.apply (cs : FilterChangeset F) (filters : Filters F) :
    FilterChangeset F × Filters F :=
  (⟨[]⟩, FilterChangeset.applyLoop cs.updates filters)

/-! ### Demux context and handler behaviour -/

/-- The `DemuxContext` contract: the context carries the changeset and the
stream-constructor state. -/
structure DemuxCtx (F C : Type) where
  changeset : FilterChangeset F
  ctor : C

/-- The behaviour the dispatcher consumes from its collaborators:
`construct` answers `FilterRequest::ByPid` requests and `consume` is the
installed handler's `PacketFilter::consume` (it may mutate the handler and
the context, e.g. enqueue changeset edits). -/
structure DemuxHooks (F C : Type) where
  construct : C → Nat → C × F
  consume : F → DemuxCtx F C → List Byte → F × DemuxCtx F C

/-! ### The dispatch loop (`Demultiplex::push`)

The loop is embedded with an explicit cursor `i` (always a multiple of 188),
and instrumented with a ghost trace `events` recording, in order, every
handler invocation as `(offset, pid, packet)`.  The ghost trace does not
influence control flow. -/

/-- Result of the same-PID batching inner loop of `Demultiplex::push`:
the (possibly mutated) borrowed handler, the context, the ghost event
trace, the cursor position at loop exit, and whether the loop executed
the `return` statement (non-sync byte found mid-run). -/
structure InnerRes (F C : Type) where
  proc : F
  ctx : DemuxCtx F C
  events : List (Nat × Nat × List Byte)
  i : Nat
  ret : Bool

/-- The `while ctx.filter_changeset().is_empty()` inner loop of
`Demultiplex::push`: consume the current packet, advance `i`, stop on
buffer exhaustion, `return` on a non-sync byte, and step `i` back by one
packet before breaking when the PID changes. -/
def innerLoop (hooks : DemuxHooks F C) (buf : List Byte) (this_pid : Nat)
    (proc : F) (ctx : DemuxCtx F C) (events : List (Nat × Nat × List Byte))
    (i : Nat) (pk : List Byte) : InnerRes F C :=
  if ctx.changeset.is_empty then
    let pc := hooks.consume proc ctx pk
    let events1 := events ++ [(i, this_pid, pk)]
    if h : buf.length < i + PACKET_SIZE + PACKET_SIZE then
      ⟨pc.1, pc.2, events1, i + PACKET_SIZE, false⟩
    else
      let pk1 := tsChunk buf (i + PACKET_SIZE)
      if ¬ Packet.is_sync_byte (pk1.getD 0 0) then
        ⟨pc.1, pc.2, events1, i + PACKET_SIZE, true⟩
      else if Packet.pid pk1 ≠ this_pid then
        ⟨pc.1, pc.2, events1, i + PACKET_SIZE - PACKET_SIZE, false⟩
      else
        innerLoop hooks buf this_pid pc.1 pc.2 events1 (i + PACKET_SIZE) pk1
  else ⟨proc, ctx, events, i, false⟩
termination_by buf.length - i
decreasing_by
  simp only [PACKET_SIZE] at *
  omega

/-- The inner loop never moves the cursor backwards past its entry value. -/
theorem innerLoop_le_i (hooks : DemuxHooks F C) (buf : List Byte) (this_pid : Nat)
    (proc : F) (ctx : DemuxCtx F C) (events : List (Nat × Nat × List Byte))
    (i : Nat) (pk : List Byte) :
    i ≤ (innerLoop hooks buf this_pid proc ctx events i pk).i := by
  induction proc, ctx, events, i, pk using innerLoop.induct hooks buf this_pid with
  | case1 proc ctx events i pk hemp h =>
    rw [innerLoop]
    simp only [hemp, if_true, dif_pos h]
    omega
  | case2 proc ctx events i pk hemp h pk1 hsync =>
    rw [innerLoop]
    simp only [hemp, if_true, dif_neg h, if_pos hsync]
    omega
  | case3 proc ctx events i pk hemp h pk1 hsync hpid =>
    rw [innerLoop]
    simp only [hemp, if_true, dif_neg h, if_neg hsync, if_pos hpid]
    omega
  | case4 proc ctx events i pk hemp pc events1 h pk1 hsync hpid ih =>
    rw [innerLoop]
    simp only [hemp, if_true, dif_neg h, if_neg hsync, if_neg hpid]
    exact le_trans (Nat.le_add_right i PACKET_SIZE) ih
  | case5 proc ctx events i pk hemp =>
    rw [innerLoop]
    simp [hemp]

/-- Termination measure for the outer loop of `Demultiplex::push`: after a
run of the inner loop plus the outer 188-byte step, the remaining buffer
shrinks. -/
theorem pushMeasure (hooks : DemuxHooks F C) (buf : List Byte) (p : Nat) (proc : F)
    (cx : DemuxCtx F C) (ev : List (Nat × Nat × List Byte)) (i : Nat) (pk : List Byte)
    (h : ¬ buf.length < i + PACKET_SIZE) :
    buf.length - ((innerLoop hooks buf p proc cx ev i pk).i + PACKET_SIZE) <
      buf.length - i := by
  have hle := innerLoop_le_i hooks buf p proc cx ev i pk
  simp only [PACKET_SIZE] at *
  omega

/-- The body of `Demultiplex::push`: the outer packet loop.  Handles one
packet boundary per iteration: length check, sync check, ensure a filter is
installed for the packet's PID, run the same-PID inner loop holding that
filter, write the (possibly mutated) filter back (the Rust borrow mutates
the table slot in place), then drain any pending changeset before moving to
the next boundary. -/
def pushLoop (hooks : DemuxHooks F C) (buf : List Byte) (filters : Filters F)
    (ctx : DemuxCtx F C) (events : List (Nat × Nat × List Byte)) (i : Nat) :
    Filters F × DemuxCtx F C × List (Nat × Nat × List Byte) :=
  if hlen : buf.length < i + PACKET_SIZE then (filters, ctx, events)
  else
    let pk_buf := tsChunk buf i
    if Packet.is_sync_byte (pk_buf.getD 0 0) then
      let this_pid := Packet.pid pk_buf
      let fc : Filters F × DemuxCtx F C :=
        if filters.contains this_pid then (filters, ctx)
        else
          let cf := hooks.construct ctx.ctor this_pid
          (filters.insert this_pid cf.2, ⟨ctx.changeset, cf.1⟩)
      match fc.1.get this_pid with
      | none => (fc.1, fc.2, events)
        -- the Rust code unwraps here; unreachable, since a filter for
        -- `this_pid` was ensured just above
      | some proc =>
        let r := innerLoop hooks buf this_pid proc fc.2 events i pk_buf
        let filters1 := fc.1.insert this_pid r.proc
        if r.ret then (filters1, r.ctx, r.events)
        else
          let ap : FilterChangeset F × Filters F :=
            if r.ctx.changeset.is_empty then (r.ctx.changeset, filters1)
            else r.ctx.changeset.apply filters1
          pushLoop hooks buf ap.2 ⟨ap.1, r.ctx.ctor⟩ r.events (r.i + PACKET_SIZE)
    else (filters, ctx, events)
termination_by buf.length - i
decreasing_by
  exact pushMeasure hooks buf _ proc _ events i _ hlen

/-- `Demultiplex::push`: process the whole 188-byte packets of `buf`,
returning the final filter table, context, and the ghost trace of handler
invocations. -/
def Demultiplex.push (hooks : DemuxHooks F C) (filters : Filters F)
    (ctx : DemuxCtx F C) (buf : List Byte) :
    Filters F × DemuxCtx F C × List (Nat × Nat × List Byte) :=
  pushLoop hooks buf filters ctx [] 0

/-- `Demultiplex::new`: fresh filter table with a handler for PID 0
installed via `FilterRequest::ByPid(0)`. -/
def Demultiplex.new (hooks : DemuxHooks F C) (ctx : DemuxCtx F C) :
    Filters F × DemuxCtx F C :=
  let cf := hooks.construct ctx.ctor 0
  ((Filters.new).insert 0 cf.2, ⟨ctx.changeset, cf.1⟩)

/-! ### PAT section parsing (`ProgramDescriptor`, `PatSection`, `ProgramIter`) -/

/-- `ProgramDescriptor::program_number`: big-endian u16 from bytes 0–1. -/
def ProgramDescriptor.program_number (d : List Byte) : Nat :=
  d.getD 0 0 * 256 + d.getD 1 0

/-- `ProgramDescriptor::pid`: 13-bit PID from bytes 2–3 (`data[2] & 0x1f`
is the high part). -/
def ProgramDescriptor.pid (d : List Byte) : Nat :=
  d.getD 2 0 % 32 * 256 + d.getD 3 0

/-- `ProgramIter::next`, iterated to the end: splits the PAT section body
into 4-byte program descriptors.  `none` models the abort of
`split_at(4)` on a non-empty final chunk shorter than 4 bytes. -/
def patPrograms : List Byte → Option (List (List Byte))
  | [] => some []
  | a :: b :: c :: d :: rest =>
    match patPrograms rest with
    | none => none
    | some l => some ([a, b, c, d] :: l)
  | _ => none

/-! ### PMT section parsing (`StreamInfo`, `PmtSection`, `StreamInfoIter`) -/

/-- `StreamInfo::stream_type`: byte 0. -/
def StreamInfo.stream_type (d : List Byte) : Nat := d.getD 0 0

/-- `StreamInfo::elementary_pid`: 13 bits from bytes 1–2. -/
def StreamInfo.elementary_pid (d : List Byte) : Nat :=
  d.getD 1 0 % 32 * 256 + d.getD 2 0

/-- `StreamInfo::es_info_length`: 12 bits from bytes 3–4. -/
def StreamInfo.es_info_length (d : List Byte) : Nat :=
  d.getD 3 0 % 16 * 256 + d.getD 4 0

/-- `StreamInfo::from_bytes`: `None` when fewer than 5 bytes remain, or when
`es_info_length` extends beyond the remaining bytes; otherwise the entry
(the remaining slice itself, as in the source) and its total length. -/
def StreamInfo.from_bytes (data : List Byte) : Option (List Byte × Nat) :=
  if data.length < 5 then none
  else if data.length < 5 + StreamInfo.es_info_length data then none
  else some (data, 5 + StreamInfo.es_info_length data)

/-- `StreamInfoIter::next`, iterated to the end: yields entries until the
buffer is empty or `StreamInfo::from_bytes` refuses the remainder. -/
def streamInfos (buf : List Byte) : List (List Byte) :=
  if buf.isEmpty then []
  else
    match h : StreamInfo.from_bytes buf with
    | none => []
    | some si => si.1 :: streamInfos (buf.drop si.2)
termination_by buf.length
decreasing_by
  simp only [StreamInfo.from_bytes] at h
  split at h
  · exact absurd h (by simp)
  · split at h
    · exact absurd h (by simp)
    · simp only [Option.some.injEq] at h
      subst h
      simp only [List.length_drop]
      omega

/-- `PmtSection::program_info_length`: 12 bits from bytes 2–3 of the PMT
section body. -/
def PmtSection.program_info_length (d : List Byte) : Nat :=
  d.getD 2 0 % 16 * 256 + d.getD 3 0

/-- `PmtSection::streams`: `none` models the explicit abort executed when
`program_info_length` extends beyond the end of the section body (and also
the out-of-range indexing of bytes 2–3 on a body shorter than 4 bytes);
otherwise the `StreamInfo` entries of the region after the program
descriptors. -/
def PmtSection.streams (data : List Byte) : Option (List (List Byte)) :=
  if data.length < 4 then none
  else if data.length < 4 + PmtSection.program_info_length data then none
  else some (streamInfos (data.drop (4 + PmtSection.program_info_length data)))

/-! ### PAT and PMT table processors

`FixedBitSet` (capacity 0x2000) is modelled as a total function
`Nat → Bool`; every index the processors touch is a 13-bit PID, well below
the capacity.  `header` and `table_syntax_header` are represented by the
only fields the processors read: `table_id` and `version`.  On a panicking
path (`none`) the edits enqueued before the abort are not modelled: the
process dies with the panic. -/

/-- `PatProcessor` state. -/
structure PatProcessor where
  current_version : Option Nat
  filters_registered : Nat → Bool

/-- `PatProcessor::new`. -/
def PatProcessor.new : PatProcessor := ⟨none, fun _ => false⟩

/-- `PmtProcessor` state. -/
structure PmtProcessor where
  pid : Nat
  program_number : Nat
  current_version : Option Nat
  filters_registered : Nat → Bool

/-- `PmtProcessor::new`. -/
def PmtProcessor.new (pid program_number : Nat) : PmtProcessor :=
  ⟨pid, program_number, none, fun _ => false⟩

/-- Accumulator of the announce loop of `new_table`: constructor state,
changeset, the `pids_seen` set (as a list) and the `filters_registered`
bitset. -/
structure TableAcc (F C : Type) where
  ctor : C
  changeset : FilterChangeset F
  pids_seen : List Nat
  registered : Nat → Bool

/-- The `for desc in sect.programs()` loop of `PatProcessor::new_table`:
construct a filter for `FilterRequest::Pmt{pid, program_number}`, enqueue
its insertion, record the PID as seen and set its bit. -/
def patAnnounce (construct : C → Nat → Nat → C × F) (progs : List (List Byte))
    (a0 : TableAcc F C) : TableAcc F C :=
  progs.foldl (fun a d =>
    let cf := construct a.ctor (ProgramDescriptor.pid d) (ProgramDescriptor.program_number d)
    ⟨cf.1, a.changeset.insert (ProgramDescriptor.pid d) cf.2,
     a.pids_seen ++ [ProgramDescriptor.pid d],
     Function.update a.registered (ProgramDescriptor.pid d) true⟩) a0

/-- The `for pid in 0..0x1fff` cleanup loop shared by
`PatProcessor::new_table` and `PmtProcessor::new_table`, over an explicit
index list: for every listed pid whose bit is set but which was not seen,
enqueue a `Remove` edit and clear the bit. -/
def removeUnseenOver (seen : List Nat) (idx : List Nat)
    (st : FilterChangeset F × (Nat → Bool)) : FilterChangeset F × (Nat → Bool) :=
  idx.foldl (fun st pid =>
    if st.2 pid && !(seen.contains pid) then
      (st.1.remove pid, Function.update st.2 pid false)
    else st) st

/-- The cleanup loop as written in the source: indices `0..0x1fff`
(exclusive upper bound, so PID 0x1fff is never visited). -/
def removeUnseen (seen : List Nat) (st : FilterChangeset F × (Nat → Bool)) :
    FilterChangeset F × (Nat → Bool) :=
  removeUnseenOver seen (List.range 0x1fff) st

/-- `PatProcessor::new_table`: discard on a table id other than 0x00;
otherwise insert a freshly constructed PMT filter per announced program,
remove every previously registered pid (below 0x1fff) not in the new
table, and record the version.  `none` models the program-iterator abort
on a body whose length is not a multiple of 4. -/
def PatProcessor.new_table (construct : C → Nat → Nat → C × F)
    (st : PatProcessor) (ctx : DemuxCtx F C) (table_id version : Nat)
    (body : List Byte) : Option (PatProcessor × DemuxCtx F C) :=
  if 0 ≠ table_id then some (st, ctx)
  else
    match patPrograms body with
    | none => none
    | some progs =>
      let a := patAnnounce construct progs ⟨ctx.ctor, ctx.changeset, [], st.filters_registered⟩
      let r := removeUnseen a.pids_seen (a.changeset, a.registered)
      some (⟨some version, r.2⟩, ⟨r.1, a.ctor⟩)

/-- The `for stream_info in sect.streams()` loop of
`PmtProcessor::new_table`: construct a filter for
`FilterRequest::ByStream(stream_type, &sect, &stream_info)`, enqueue its
insertion at the elementary PID, record the PID as seen and set its bit. -/
def pmtAnnounce (construct : C → Nat → List Byte → List Byte → C × F)
    (body : List Byte) (sis : List (List Byte)) (a0 : TableAcc F C) : TableAcc F C :=
  sis.foldl (fun a si =>
    let cf := construct a.ctor (StreamInfo.stream_type si) body si
    ⟨cf.1, a.changeset.insert (StreamInfo.elementary_pid si) cf.2,
     a.pids_seen ++ [StreamInfo.elementary_pid si],
     Function.update a.registered (StreamInfo.elementary_pid si) true⟩) a0

/-- `PmtProcessor::new_table`: discard on a table id other than 0x02;
otherwise diff the announced elementary PIDs against the registered set
exactly as the PAT processor does.  `none` models the abort raised by
`PmtSection::streams` when `program_info_length` overruns the body. -/
def PmtProcessor.new_table (construct : C → Nat → List Byte → List Byte → C × F)
    (st : PmtProcessor) (ctx : DemuxCtx F C) (table_id version : Nat)
    (body : List Byte) : Option (PmtProcessor × DemuxCtx F C) :=
  if 2 ≠ table_id then some (st, ctx)
  else
    match PmtSection.streams body with
    | none => none
    | some sis =>
      let a := pmtAnnounce construct body sis ⟨ctx.ctor, ctx.changeset, [], st.filters_registered⟩
      let r := removeUnseen a.pids_seen (a.changeset, a.registered)
      some ({ st with current_version := some version, filters_registered := r.2 },
            ⟨r.1, a.ctor⟩)

/-! ### Whole-section entry points (`WholeSectionSyntaxPayloadParser::section`) -/

/-- Modelled from the spec: `psi::SectionCommonHeader::SIZE`; spec §6 gives
the common section header as 3 bytes (the `psi` module is not under src/). -/
def SectionCommonHeader.SIZE : Nat := 3

/-- Modelled from the spec: `psi::TableSyntaxHeader::SIZE`; spec §6 gives
the table syntax header as 5 bytes (the `psi` module is not under src/). -/
def TableSyntaxHeader.SIZE : Nat := 5

/-- The body slice `data[start..data.len()-4]` computed by both `section`
implementations, with `start = SectionCommonHeader::SIZE +
TableSyntaxHeader::SIZE = 8`.  `none` models the aborts: `data.len() - 4`
underflows for `data.len() < 4`, and the slice `data[8..end]` is
out of range when `end < 8`. -/
def sectionBody (data : List Byte) : Option (List Byte) :=
  if data.length < 4 then none
  else if data.length - 4 < SectionCommonHeader.SIZE + TableSyntaxHeader.SIZE then none
  else some ((data.take (data.length - 4)).drop
      (SectionCommonHeader.SIZE + TableSyntaxHeader.SIZE))

/-- `PatProcessor::section` (named `section` in the source; `section` is a
reserved word in Lean): strip headers and CRC, then `new_table`. -/
def PatProcessor.section_impl (construct : C → Nat → Nat → C × F)
    (st : PatProcessor) (ctx : DemuxCtx F C) (table_id version : Nat)
    (data : List Byte) : Option (PatProcessor × DemuxCtx F C) :=
  match sectionBody data with
  | none => none
  | some body => PatProcessor.new_table construct st ctx table_id version body

/-- `PmtProcessor::section` (named `section` in the source): strip headers
and CRC, then `new_table`. -/
def PmtProcessor.section_impl (construct : C → Nat → List Byte → List Byte → C × F)
    (st : PmtProcessor) (ctx : DemuxCtx F C) (table_id version : Nat)
    (data : List Byte) : Option (PmtProcessor × DemuxCtx F C) :=
  match sectionBody data with
  | none => none
  | some body => PmtProcessor.new_table construct st ctx table_id version body

/-! ### Concrete instances used by witnesses and counterexamples -/

/-- Concrete hooks over `Nat`-valued handlers: `construct` returns handler
`0`, and every `consume` enqueues one `Insert(1, 99)` changeset edit (as a
table processor completing a section would). -/
def edgeHooks : DemuxHooks Nat Unit :=
  ⟨fun _ _ => ((), 0), fun f ctx _ => (f, ⟨ctx.changeset.insert 1 99, ctx.ctor⟩)⟩

/-- A context with an empty changeset over `Nat` handlers. -/
def ctxN : DemuxCtx Nat Unit := ⟨FilterChangeset.new, ()⟩

/-- A concrete `FilterRequest::Pmt` constructor: returns handler `7`. -/
def cpat0 : Unit → Nat → Nat → Unit × Nat := fun _ _ _ => ((), 7)

/-- A concrete `FilterRequest::ByStream` constructor: returns handler `7`. -/
def cpmt0 : Unit → Nat → List Byte → List Byte → Unit × Nat := fun _ _ _ _ => ((), 7)

/-- A PID-0 packet: sync byte 0x47, PID 0, 185 zero bytes of payload. -/
def c1pkt : List Byte := 0x47 :: 0x00 :: 0x00 :: List.replicate 185 0

/-- Two consecutive PID-0 packets. -/
def c1buf : List Byte := c1pkt ++ c1pkt

/-- A PAT processor state whose registered-PID set is exactly {0x1fff}. -/
def st8191 : PatProcessor := ⟨none, fun p => p == 0x1fff⟩

/-- A concrete PMT processor state (pid 101, program 1, fresh). -/
def pmtSt0 : PmtProcessor := PmtProcessor.new 101 1

/-! ### Helper lemmas -/

theorem applyLoop_eq_foldl (l : List (FilterChange F)) (filters : Filters F) :
    FilterChangeset.applyLoop l filters = l.foldl (fun t e => e.apply t) filters := by
  induction l generalizing filters with
  | nil => rfl
  | cons u rest ih => simp [FilterChangeset.applyLoop, List.foldl_cons, ih]

/-! ### Claims -/

/-- C4: for every changeset and every filter table, `apply` applies the
edits in exactly enqueue order, each via the table's own `insert` or
`remove` (a left fold of the update log over the table), and afterwards
the changeset satisfies `is_empty`. -/
theorem changeset_apply_in_order (T : Type) (cs : FilterChangeset T)
    (filters : Filters T) :
    FilterChangeset.apply cs filters =
      (⟨[]⟩, cs.updates.foldl (fun t e =>
          match e with
          | FilterChange.Insert pid f => t.insert pid f
          | FilterChange.Remove pid => t.remove pid) filters) ∧
    (FilterChangeset.apply cs filters).1.is_empty = true := by
  refine ⟨?_, rfl⟩
  unfold FilterChangeset.apply
  rw [applyLoop_eq_foldl]
  rfl

/-- C6 (amended): `insert` grows the backing storage to `max (old length)
(pid+1)` (so at least `pid+1` when `pid` is beyond the current length),
never shrinks it, and afterwards `contains pid` holds and `get pid`
returns the newly inserted handler (replacing any previous one).  The
length stays within the 8192-slot PID space only under the additional
hypothesis `pid ≤ 0x1fff`: the claim's "never exceeds 8192 slots" is
false for larger (u16) pids. -/
theorem filters_insert_spec (T : Type) (s : Filters T) (pid : Nat) (f : T) :
    (s.insert pid f).filters_by_pid.length = max s.filters_by_pid.length (pid + 1) ∧
    s.filters_by_pid.length ≤ (s.insert pid f).filters_by_pid.length ∧
    (s.insert pid f).contains pid = true ∧
    (s.insert pid f).get pid = some f ∧
    (pid ≤ 0x1fff → s.filters_by_pid.length ≤ 0x2000 →
      (s.insert pid f).filters_by_pid.length ≤ 0x2000) := by
  have hlen : (s.insert pid f).filters_by_pid.length =
      max s.filters_by_pid.length (pid + 1) := by
    simp only [Filters.insert, List.length_set, List.length_append,
      List.length_replicate]
    omega
  have hpid : pid < (s.insert pid f).filters_by_pid.length := by
    rw [hlen]; omega
  have hget : (s.insert pid f).filters_by_pid.getD pid none = some f := by
    simp only [Filters.insert]
    have hlt : pid < ((s.filters_by_pid ++
        List.replicate (pid + 1 - s.filters_by_pid.length) none)).length := by
      simp only [List.length_append, List.length_replicate]; omega
    simp only [List.getD, List.get?_set_eq_of_lt (some f) hlt, Option.getD_some]
  refine ⟨hlen, by omega, ?_, ?_, by omega⟩
  · simp only [Filters.contains, hget, Option.isSome_some, Bool.and_true,
      decide_eq_true_eq]
    exact hpid
  · simp only [Filters.get, if_neg (by omega : ¬ (s.insert pid f).filters_by_pid.length ≤ pid)]
    exact hget

/-- C6 counterexample: inserting at PID 9000 (a value the `u16` parameter
admits) grows the backing storage to 9001 slots, so the claimed "logical
size never exceeds 8192 slots" is false as stated for arbitrary pids. -/
theorem filters_insert_exceeds_8192 :
    ((Filters.new : Filters Nat).insert 9000 0).filters_by_pid.length = 9001 ∧
    8192 < ((Filters.new : Filters Nat).insert 9000 0).filters_by_pid.length := by
  have h : ((Filters.new : Filters Nat).insert 9000 0).filters_by_pid.length = 9001 := by
    simp only [Filters.new, Filters.insert, List.length_set, List.length_append,
      List.length_replicate, List.length_nil]
  exact ⟨h, by omega⟩

/-- C6 witness: the amended insert specification at a concrete input. -/
theorem filters_insert_spec_witness :
    ((Filters.new : Filters Nat).insert 3 5).contains 3 = true ∧
    ((Filters.new : Filters Nat).insert 3 5).get 3 = some 5 ∧
    ((Filters.new : Filters Nat).insert 3 5).filters_by_pid.length ≤ 0x2000 :=
  ⟨(filters_insert_spec Nat Filters.new 3 5).2.2.1,
   (filters_insert_spec Nat Filters.new 3 5).2.2.2.1,
   (filters_insert_spec Nat Filters.new 3 5).2.2.2.2 (by decide) (by decide)⟩

/-- C7: a delivered section whose table id differs from the expected value
(0x00 for the PAT processor, 0x02 for the PMT processor) is logged and
discarded: no changeset edits are enqueued and the processor state
(`current_version` and the registered-PID set) is exactly as before. -/
theorem unexpected_table_id_discard (T U : Type) (cp : U → Nat → Nat → U × T)
    (cm : U → Nat → List Byte → List Byte → U × T)
    (stA : PatProcessor) (stM : PmtProcessor) (ctxA ctxM : DemuxCtx T U)
    (tidA tidM vA vM : Nat) (bodyA bodyM : List Byte) :
    (tidA ≠ 0 → PatProcessor.new_table cp stA ctxA tidA vA bodyA = some (stA, ctxA)) ∧
    (tidM ≠ 2 → PmtProcessor.new_table cm stM ctxM tidM vM bodyM = some (stM, ctxM)) := by
  constructor
  · intro h
    rw [PatProcessor.new_table, if_pos (Ne.symm h)]
  · intro h
    rw [PmtProcessor.new_table, if_pos (Ne.symm h)]

/-- C7 witness: the discard at concrete table id 1 for both processors. -/
theorem unexpected_table_id_discard_witness :
    PatProcessor.new_table cpat0 PatProcessor.new ctxN 1 0 [] =
      some (PatProcessor.new, ctxN) ∧
    PmtProcessor.new_table cpmt0 pmtSt0 ctxN 1 0 [] = some (pmtSt0, ctxN) :=
  ⟨(unexpected_table_id_discard Nat Unit cpat0 cpmt0 PatProcessor.new pmtSt0 ctxN ctxN
      1 1 0 0 [] []).1 (by decide),
   (unexpected_table_id_discard Nat Unit cpat0 cpmt0 PatProcessor.new pmtSt0 ctxN ctxN
      1 1 0 0 [] []).2 (by decide)⟩

/-- C9: the body-slice computation `data[8 .. len-4]` of the `section`
entry points of both processors is partial: it aborts for every `data`
shorter than 12 bytes (3-byte common header + 5-byte table syntax header
+ 4-byte CRC), and succeeds exactly when `data.len() ≥ 12`. -/
theorem section_body_requires_12_bytes (T U : Type) (cp : U → Nat → Nat → U × T)
    (cm : U → Nat → List Byte → List Byte → U × T)
    (stA : PatProcessor) (stM : PmtProcessor) (ctxA ctxM : DemuxCtx T U)
    (tidA tidM vA vM : Nat) (data : List Byte) :
    ((sectionBody data).isSome ↔ 12 ≤ data.length) ∧
    (data.length < 12 →
      PatProcessor.section_impl cp stA ctxA tidA vA data = none ∧
      PmtProcessor.section_impl cm stM ctxM tidM vM data = none) := by
  have hnone : data.length < 12 → sectionBody data = none := by
    intro h
    unfold sectionBody
    split
    · rfl
    · rw [if_pos]
      simp only [SectionCommonHeader.SIZE, TableSyntaxHeader.SIZE]
      omega
  constructor
  · constructor
    · intro h
      by_contra hlen
      rw [hnone (by omega)] at h
      simp at h
    · intro h
      have h2 : ¬ data.length - 4 < SectionCommonHeader.SIZE + TableSyntaxHeader.SIZE := by
        simp only [SectionCommonHeader.SIZE, TableSyntaxHeader.SIZE]
        omega
      unfold sectionBody
      rw [if_neg (by omega), if_neg h2]
      rfl
  · intro h
    constructor
    · rw [PatProcessor.section_impl, hnone h]
    · rw [PmtProcessor.section_impl, hnone h]

/-- C9 witness: both entry points abort on a concrete 3-byte slice. -/
theorem section_body_requires_12_bytes_witness :
    PatProcessor.section_impl cpat0 PatProcessor.new ctxN 0 0 [0, 0, 0] = none ∧
    PmtProcessor.section_impl cpmt0 pmtSt0 ctxN 2 0 [0, 0, 0] = none :=
  (section_body_requires_12_bytes Nat Unit cpat0 cpmt0 PatProcessor.new pmtSt0 ctxN ctxN
    0 2 0 0 [0, 0, 0]).2 (by decide)

/-- C10 helper: `patPrograms` succeeds exactly on bodies whose length is a
multiple of 4 (induction on a length bound). -/
theorem pat_programs_aux : ∀ (n : Nat) (body : List Byte), body.length ≤ n →
    (patPrograms body = none ↔ ¬ body.length % 4 = 0) := by
  intro n
  induction n with
  | zero =>
    intro body h
    have hb : body = [] := List.eq_nil_of_length_eq_zero (by omega)
    subst hb
    simp [patPrograms]
  | succ n ih =>
    intro body h
    match body with
    | [] => simp [patPrograms]
    | [a] => simp [patPrograms]
    | [a, b] => simp [patPrograms]
    | [a, b, c] => simp [patPrograms]
    | a :: b :: c :: d :: rest =>
      have hr := ih rest (by simp only [List.length_cons] at h; omega)
      simp only [patPrograms, List.length_cons]
      cases hpp : patPrograms rest with
      | none =>
        have hmod : ¬ rest.length % 4 = 0 := hr.mp hpp
        constructor
        · intro _
          omega
        · intro _
          rfl
      | some l =>
        have hmod : rest.length % 4 = 0 := by
          by_contra hc
          rw [hr.mpr hc] at hpp
          exact Option.noConfusion hpp
        constructor
        · intro hc
          exact Option.noConfusion hc
        · intro hx
          exact absurd (by omega : (rest.length + 1 + 1 + 1 + 1) % 4 = 0) hx

/-- C10: PAT program iteration is total exactly on bodies whose length is
a multiple of 4; on any other body the iterator aborts (`split_at(4)` on
a final chunk shorter than 4 bytes) instead of stopping or skipping. -/
theorem pat_program_iter_partiality (body : List Byte) :
    patPrograms body = none ↔ ¬ body.length % 4 = 0 :=
  pat_programs_aux body.length body le_rfl

/-- C8: while iterating the `StreamInfo` entries of a PMT section body, a
remainder shorter than 5 bytes, or an `es_info_length` overrunning the
remainder, stops iteration at that point without aborting (the iterator
yields nothing further), while a valid leading entry is yielded and
iteration continues behind it — so all entries yielded before a truncation
point are still returned. -/
theorem stream_info_iter_truncation (buf : List Byte) (hne : buf ≠ []) :
    ((buf.length < 5 ∨ buf.length < 5 + StreamInfo.es_info_length buf) →
      streamInfos buf = []) ∧
    (5 ≤ buf.length → 5 + StreamInfo.es_info_length buf ≤ buf.length →
      streamInfos buf =
        buf :: streamInfos (buf.drop (5 + StreamInfo.es_info_length buf))) := by
  have hbe : ¬ buf.isEmpty = true := by simp [List.isEmpty_iff, hne]
  constructor
  · intro hcase
    have hfb : StreamInfo.from_bytes buf = none := by
      unfold StreamInfo.from_bytes
      split
      · rfl
      · rw [if_pos (by omega)]
    rw [streamInfos, if_neg hbe]
    split
    · rfl
    · rename_i si heq
      rw [hfb] at heq
      exact Option.noConfusion heq
  · intro h5 hes
    have hfb : StreamInfo.from_bytes buf =
        some (buf, 5 + StreamInfo.es_info_length buf) := by
      unfold StreamInfo.from_bytes
      rw [if_neg (by omega), if_neg (by omega)]
    rw [streamInfos, if_neg hbe]
    split
    · rename_i heq
      rw [hfb] at heq
      exact Option.noConfusion heq
    · rename_i si heq
      rw [hfb] at heq
      obtain rfl : si = (buf, 5 + StreamInfo.es_info_length buf) :=
        (Option.some.injEq _ _).mp heq.symm
      rfl

/-- C8 witness: a body with one valid entry followed by a 3-byte
remainder: the entry is yielded, then iteration truncates. -/
theorem stream_info_iter_truncation_witness :
    streamInfos [0, 0, 201, 0, 0, 1, 2, 3] =
      [0, 0, 201, 0, 0, 1, 2, 3] ::
        streamInfos (([0, 0, 201, 0, 0, 1, 2, 3] : List Byte).drop
          (5 + StreamInfo.es_info_length [0, 0, 201, 0, 0, 1, 2, 3])) ∧
    streamInfos [1, 2, 3] = [] :=
  ⟨(stream_info_iter_truncation [0, 0, 201, 0, 0, 1, 2, 3] (by decide)).2
      (by decide) (by decide),
   (stream_info_iter_truncation [1, 2, 3] (by decide)).1 (by decide)⟩

/-- C3 (amended): a PMT section (table id 0x02) whose
`program_info_length` extends beyond the section body is fatal for the
whole section, with no changeset edits enqueued and no state mutated —
but by an abort raised in `PmtSection::streams` that propagates to the
caller, not by a silent discard. -/
theorem pmt_overlong_program_info_aborts (T U : Type)
    (cm : U → Nat → List Byte → List Byte → U × T) (st : PmtProcessor)
    (ctx : DemuxCtx T U) (version : Nat) (body : List Byte)
    (h4 : 4 ≤ body.length)
    (hov : body.length < 4 + PmtSection.program_info_length body) :
    PmtProcessor.new_table cm st ctx 2 version body = none := by
  have hs : PmtSection.streams body = none := by
    unfold PmtSection.streams
    rw [if_neg (by omega), if_pos hov]
  rw [PmtProcessor.new_table, if_neg (by omega), hs]

/-- C3 counterexample: on the 4-byte body `[0, 0, 0x0F, 0xFF]` (whose
`program_info_length` 0xFFF overruns the body) the PMT processor does not
return normally with unchanged state — processing aborts, so the error is
surfaced to the caller rather than swallowed. -/
theorem pmt_overlong_program_info_not_silent :
    PmtProcessor.new_table cpmt0 pmtSt0 ctxN 2 0 [0, 0, 0x0F, 0xFF] ≠
      some (pmtSt0, ctxN) := by
  have h : PmtProcessor.new_table cpmt0 pmtSt0 ctxN 2 0 [0, 0, 0x0F, 0xFF] = none := rfl
  rw [h]
  simp

/-- C3 witness: the amended abort behaviour at a concrete section body. -/
theorem pmt_overlong_program_info_aborts_witness :
    4 ≤ ([0, 0, 0x0F, 0xFF] : List Byte).length ∧
    PmtProcessor.new_table cpmt0 pmtSt0 ctxN 2 1 [0, 0, 0x0F, 0xFF] = none :=
  ⟨by decide,
   pmt_overlong_program_info_aborts Nat Unit cpmt0 pmtSt0 ctxN 1 [0, 0, 0x0F, 0xFF]
     (by decide) (by decide)⟩

/-! ### Characterization of the PAT announce and cleanup loops (for C2) -/

/-- `ins` is a list of `Insert` edits, one per pid of `pids` in order (the
handler values are unconstrained). -/
def insertsFor (pids : List Nat) (ins : List (FilterChange F)) : Prop :=
  ins.length = pids.length ∧
  ∀ k, k < ins.length →
    ∃ fh, ins.getD k (FilterChange.Remove 0) = FilterChange.Insert (pids.getD k 0) fh

theorem patAnnounce_pids_seen (construct : C → Nat → Nat → C × F) :
    ∀ (progs : List (List Byte)) (a : TableAcc F C),
      (patAnnounce construct progs a).pids_seen =
        a.pids_seen ++ progs.map ProgramDescriptor.pid := by
  unfold patAnnounce
  intro progs
  induction progs with
  | nil => intro a; simp
  | cons d rest ih =>
    intro a
    rw [List.foldl_cons, ih]
    simp

theorem patAnnounce_registered (construct : C → Nat → Nat → C × F) :
    ∀ (progs : List (List Byte)) (a : TableAcc F C) (p : Nat),
      (patAnnounce construct progs a).registered p =
        (a.registered p || (progs.map ProgramDescriptor.pid).contains p) := by
  unfold patAnnounce
  intro progs
  induction progs with
  | nil => intro a p; simp
  | cons d rest ih =>
    intro a p
    rw [List.foldl_cons, ih]
    by_cases hp : p = ProgramDescriptor.pid d
    · subst hp
      simp [Function.update_same, List.contains_cons]
    · simp [Function.update_noteq hp, List.contains_cons, decide_eq_false hp]

theorem patAnnounce_changeset (construct : C → Nat → Nat → C × F) :
    ∀ (progs : List (List Byte)) (a : TableAcc F C),
      ∃ ins, (patAnnounce construct progs a).changeset.updates =
          a.changeset.updates ++ ins ∧
        insertsFor (progs.map ProgramDescriptor.pid) ins := by
  unfold patAnnounce
  intro progs
  induction progs with
  | nil =>
    intro a
    exact ⟨[], by simp, by simp [insertsFor]⟩
  | cons d rest ih =>
    intro a
    rw [List.foldl_cons]
    obtain ⟨ins, hupd, hlen, hfor⟩ := ih ⟨(construct a.ctor (ProgramDescriptor.pid d)
      (ProgramDescriptor.program_number d)).1,
      a.changeset.insert (ProgramDescriptor.pid d)
        (construct a.ctor (ProgramDescriptor.pid d) (ProgramDescriptor.program_number d)).2,
      a.pids_seen ++ [ProgramDescriptor.pid d],
      Function.update a.registered (ProgramDescriptor.pid d) true⟩
    refine ⟨FilterChange.Insert (ProgramDescriptor.pid d)
      (construct a.ctor (ProgramDescriptor.pid d) (ProgramDescriptor.program_number d)).2
        :: ins, ?_, ?_, ?_⟩
    · rw [hupd]
      simp [FilterChangeset.insert]
    · simp [hlen]
    · intro k hk
      cases k with
      | zero => exact ⟨_, rfl⟩
      | succ k =>
        simp only [List.getD_cons_succ, List.map_cons]
        exact hfor k (by simp at hk; omega)

theorem removeUnseenOver_updates (seen : List Nat) :
    ∀ (idx : List Nat), idx.Nodup → ∀ (st : FilterChangeset F × (Nat → Bool)),
      (removeUnseenOver seen idx st).1.updates =
        st.1.updates ++
          ((idx.filter (fun p => st.2 p && !(seen.contains p))).map FilterChange.Remove) := by
  unfold removeUnseenOver
  intro idx
  induction idx with
  | nil => intro _ st; simp
  | cons a rest ih =>
    intro hnd st
    obtain ⟨hna, hndr⟩ := List.nodup_cons.mp hnd
    rw [List.foldl_cons]
    by_cases hc : (st.2 a && !(seen.contains a)) = true
    · rw [if_pos hc, ih hndr]
      have hfilter : rest.filter (fun p => (Function.update st.2 a false) p &&
          !(seen.contains p)) = rest.filter (fun p => st.2 p && !(seen.contains p)) := by
        apply List.filter_congr
        intro p hp
        have hne : p ≠ a := fun h => hna (h ▸ hp)
        rw [Function.update_noteq hne]
      rw [hfilter]
      have hc' : st.2 a = true ∧ a ∉ seen := by
        simp only [Bool.and_eq_true, Bool.not_eq_true'] at hc
        exact ⟨hc.1, by simpa using hc.2⟩
      simp [FilterChangeset.remove, List.filter_cons, hc'.1, hc'.2]
    · rw [if_neg hc, ih hndr]
      have hc' : ¬ (st.2 a = true ∧ a ∉ seen) := by
        intro hcc
        apply hc
        simp [hcc.1, hcc.2]
      simp [List.filter_cons, hc']

theorem removeUnseenOver_registered (seen : List Nat) :
    ∀ (idx : List Nat), idx.Nodup → ∀ (st : FilterChangeset F × (Nat → Bool)) (p : Nat),
      (removeUnseenOver seen idx st).2 p =
        (st.2 p && !(idx.contains p && !(seen.contains p))) := by
  unfold removeUnseenOver
  intro idx
  induction idx with
  | nil => intro _ st p; simp
  | cons a rest ih =>
    intro hnd st p
    obtain ⟨hna, hndr⟩ := List.nodup_cons.mp hnd
    rw [List.foldl_cons]
    by_cases hc : (st.2 a && !(seen.contains a)) = true
    · rw [if_pos hc, ih hndr]
      by_cases hp : p = a
      · subst hp
        simp only [Bool.and_eq_true, Bool.not_eq_true'] at hc
        have hns : p ∉ seen := by simpa using hc.2
        simp [Function.update_same, List.contains_cons, hc.1, hns]
      · simp [Function.update_noteq hp, List.contains_cons, decide_eq_false hp]
    · rw [if_neg hc, ih hndr]
      by_cases hp : p = a
      · subst hp
        have hrest : rest.contains p = false := by
          simpa using hna
        simp only [List.contains_cons, hrest]
        cases hsp : st.2 p with
        | false => simp [hsp]
        | true =>
          have hse : p ∈ seen := by
            rw [hsp] at hc
            simpa using hc
          simp [hsp, hse]
      · simp [List.contains_cons, decide_eq_false hp]

/-- `removeUnseen` unfolded to its index list (for rewriting without
triggering evaluation of `List.range 0x1fff`). -/
theorem removeUnseen_eq (seen : List Nat) (st : FilterChangeset F × (Nat → Bool)) :
    removeUnseen seen st = removeUnseenOver seen (List.range 0x1fff) st := rfl

/-- Reduction of `PatProcessor.new_table` at table id 0 on a well-formed
body. -/
theorem pat_new_table_unfold (T U : Type) (construct : U → Nat → Nat → U × T)
    (st : PatProcessor) (ctx : DemuxCtx T U) (version : Nat) (body : List Byte)
    (progs : List (List Byte)) (hp : patPrograms body = some progs) :
    PatProcessor.new_table construct st ctx 0 version body =
      some (⟨some version,
              (removeUnseen (patAnnounce construct progs
        ⟨ctx.ctor, ctx.changeset, [], st.filters_registered⟩).pids_seen
                ((patAnnounce construct progs
        ⟨ctx.ctor, ctx.changeset, [], st.filters_registered⟩).changeset, (patAnnounce construct progs
        ⟨ctx.ctor, ctx.changeset, [], st.filters_registered⟩).registered)).2⟩,
            ⟨(removeUnseen (patAnnounce construct progs
        ⟨ctx.ctor, ctx.changeset, [], st.filters_registered⟩).pids_seen
                ((patAnnounce construct progs
        ⟨ctx.ctor, ctx.changeset, [], st.filters_registered⟩).changeset, (patAnnounce construct progs
        ⟨ctx.ctor, ctx.changeset, [], st.filters_registered⟩).registered)).1,
             (patAnnounce construct progs
        ⟨ctx.ctor, ctx.changeset, [], st.filters_registered⟩).ctor⟩) := by
  rw [PatProcessor.new_table, if_neg (by omega), hp]

/-- C2 (amended): a PAT processor with registered-PID set `S`, processing
one delivered PAT section (table id 0x00) announcing the duplicate-free
PID list `S'`, enqueues exactly one `Insert` edit per announced PID in
section order (each with a freshly constructed handler), followed by one
`Remove` edit for each PID of `S \\ S'` below 0x1fff — PID 0x1fff is never
removed, because the cleanup loop iterates `0..0x1fff` exclusive — and the
registered set becomes `S' ∪ (S ∩ {0x1fff})`, not `S'`; the recorded
version becomes `some version`. -/
theorem pat_new_table_diff (T U : Type) (construct : U → Nat → Nat → U × T)
    (st : PatProcessor) (ctx : DemuxCtx T U) (version : Nat) (body : List Byte)
    (progs : List (List Byte)) (hp : patPrograms body = some progs)
    (hnd : (progs.map ProgramDescriptor.pid).Nodup) :
    ∃ regOut csOut ctorOut ins,
      PatProcessor.new_table construct st ctx 0 version body =
        some (⟨some version, regOut⟩, ⟨csOut, ctorOut⟩) ∧
      insertsFor (progs.map ProgramDescriptor.pid) ins ∧
      csOut.updates =
        ctx.changeset.updates ++ ins ++
          ((List.range 0x1fff).filter (fun p =>
            st.filters_registered p &&
              !((progs.map ProgramDescriptor.pid).contains p))).map FilterChange.Remove ∧
      (∀ p, p ≤ 0x1fff →
        regOut p =
          ((progs.map ProgramDescriptor.pid).contains p ||
            (st.filters_registered p && p == 0x1fff))) := by
  obtain ⟨ins, hupd, hfor⟩ := patAnnounce_changeset construct progs
    ⟨ctx.ctor, ctx.changeset, [], st.filters_registered⟩
  have hseen := patAnnounce_pids_seen construct progs
    ⟨ctx.ctor, ctx.changeset, [], st.filters_registered⟩
  have hreg := patAnnounce_registered construct progs
    ⟨ctx.ctor, ctx.changeset, [], st.filters_registered⟩
  have hred := pat_new_table_unfold T U construct st ctx version body progs hp
  refine ⟨_, _, _, ins, hred, hfor, ?_, ?_⟩
  · have hover := removeUnseenOver_updates
      (patAnnounce construct progs
        ⟨ctx.ctor, ctx.changeset, [], st.filters_registered⟩).pids_seen
      (List.range 0x1fff) (List.nodup_range _)
      ((patAnnounce construct progs
        ⟨ctx.ctor, ctx.changeset, [], st.filters_registered⟩).changeset, (patAnnounce construct progs
        ⟨ctx.ctor, ctx.changeset, [], st.filters_registered⟩).registered)
    rw [removeUnseen_eq, hover]
    rw [show (((patAnnounce construct progs
        ⟨ctx.ctor, ctx.changeset, [], st.filters_registered⟩).changeset, (patAnnounce construct progs
        ⟨ctx.ctor, ctx.changeset, [], st.filters_registered⟩).registered).1 : FilterChangeset T) =
        (patAnnounce construct progs
        ⟨ctx.ctor, ctx.changeset, [], st.filters_registered⟩).changeset from rfl]
    have hfc : (List.range 0x1fff).filter
        (fun p => ((patAnnounce construct progs
        ⟨ctx.ctor, ctx.changeset, [], st.filters_registered⟩).changeset, (patAnnounce construct progs
        ⟨ctx.ctor, ctx.changeset, [], st.filters_registered⟩).registered).2 p &&
          !((patAnnounce construct progs
        ⟨ctx.ctor, ctx.changeset, [], st.filters_registered⟩).pids_seen.contains p)) =
        (List.range 0x1fff).filter (fun p =>
          st.filters_registered p && !((progs.map ProgramDescriptor.pid).contains p)) := by
      apply List.filter_congr
      intro p _
      rw [show ((patAnnounce construct progs
        ⟨ctx.ctor, ctx.changeset, [], st.filters_registered⟩).changeset, (patAnnounce construct progs
        ⟨ctx.ctor, ctx.changeset, [], st.filters_registered⟩).registered).2 p = (patAnnounce construct progs
        ⟨ctx.ctor, ctx.changeset, [], st.filters_registered⟩).registered p from rfl]
      rw [hreg p, hseen]
      simp only [List.nil_append]
      cases hann : (progs.map ProgramDescriptor.pid).contains p <;> simp [hann]
    rw [hfc, hupd]
  · intro p hple
    have hover := removeUnseenOver_registered
      (patAnnounce construct progs
        ⟨ctx.ctor, ctx.changeset, [], st.filters_registered⟩).pids_seen
      (List.range 0x1fff) (List.nodup_range _)
      ((patAnnounce construct progs
        ⟨ctx.ctor, ctx.changeset, [], st.filters_registered⟩).changeset, (patAnnounce construct progs
        ⟨ctx.ctor, ctx.changeset, [], st.filters_registered⟩).registered) p
    rw [removeUnseen_eq, hover]
    rw [show ((patAnnounce construct progs
        ⟨ctx.ctor, ctx.changeset, [], st.filters_registered⟩).changeset, (patAnnounce construct progs
        ⟨ctx.ctor, ctx.changeset, [], st.filters_registered⟩).registered).2 p = (patAnnounce construct progs
        ⟨ctx.ctor, ctx.changeset, [], st.filters_registered⟩).registered p from rfl]
    rw [hreg p, hseen]
    simp only [List.nil_append]
    by_cases hp8 : p = 0x1fff
    · have hrange : (List.range 0x1fff).contains p = false := by
        rw [hp8]
        simp [List.mem_range]
      have hbeq : (p == 0x1fff) = true := by simp [hp8]
      rw [hrange, hbeq]
      cases hann : (progs.map ProgramDescriptor.pid).contains p <;>
        cases hsr : st.filters_registered p <;> simp [hann, hsr]
    · have hrange : (List.range 0x1fff).contains p = true := by
        simp [List.mem_range]
        omega
      have hbeq : (p == 0x1fff) = false := by simpa using hp8
      rw [hrange, hbeq]
      cases hann : (progs.map ProgramDescriptor.pid).contains p <;>
        cases hsr : st.filters_registered p <;> simp [hann, hsr]

/-- C2 counterexample: a PAT processor whose registered set is S = {0x1fff},
processing a PAT section with zero programs (S' = ∅, table id 0), keeps
PID 0x1fff registered and enqueues no edits at all — where the claim
demands post-state ∅ and exactly one `Remove` edit (|S \ S'| = 1). -/
theorem pat_pid_0x1fff_never_removed :
    PatProcessor.new_table cpat0 st8191 ctxN 0 1 [] =
      some (⟨some 1, (removeUnseen [] (ctxN.changeset, st8191.filters_registered)).2⟩,
            ⟨(removeUnseen [] (ctxN.changeset, st8191.filters_registered)).1, ctxN.ctor⟩) ∧
    (removeUnseen [] (ctxN.changeset, st8191.filters_registered)).2 0x1fff = true ∧
    (removeUnseen [] (ctxN.changeset, st8191.filters_registered)).1.updates = [] := by
  refine ⟨?_, ?_, ?_⟩
  · exact pat_new_table_unfold Nat Unit cpat0 st8191 ctxN 1 [] [] rfl
  · have hregl := removeUnseenOver_registered ([] : List Nat) (List.range 0x1fff)
      (List.nodup_range _) (ctxN.changeset, st8191.filters_registered) 0x1fff
    rw [removeUnseen_eq, hregl]
    have hrange : (List.range 0x1fff).contains 0x1fff = false := by
      simp [List.mem_range]
    rw [show ((ctxN.changeset, st8191.filters_registered).2 : Nat → Bool) =
        st8191.filters_registered from rfl, hrange]
    simp [st8191]
  · have hupdl := removeUnseenOver_updates ([] : List Nat) (List.range 0x1fff)
      (List.nodup_range _) (ctxN.changeset, st8191.filters_registered)
    rw [removeUnseen_eq, hupdl]
    have hfil : (List.range 0x1fff).filter
        (fun p => (ctxN.changeset, st8191.filters_registered).2 p &&
          !(([] : List Nat).contains p)) = [] := by
      rw [List.filter_eq_nil]
      intro p hp
      have hlt : p < 0x1fff := List.mem_range.mp hp
      simp [st8191]
      omega
    rw [hfil]
    rfl

/-- C2 witness: the amended diff behaviour at a one-program section
(program 1, PMT PID 101) from a fresh processor. -/
theorem pat_new_table_diff_witness :
    patPrograms [0, 1, 0, 101] = some [[0, 1, 0, 101]] ∧
    (([[0, 1, 0, 101]] : List (List Byte)).map ProgramDescriptor.pid).Nodup ∧
    ∃ regOut csOut ctorOut ins,
      PatProcessor.new_table cpat0 PatProcessor.new ctxN 0 0 [0, 1, 0, 101] =
        some (⟨some 0, regOut⟩, ⟨csOut, ctorOut⟩) ∧
      insertsFor ([[0, 1, 0, 101]].map ProgramDescriptor.pid) ins ∧
      csOut.updates = ctxN.changeset.updates ++ ins ++
        ((List.range 0x1fff).filter (fun p =>
          PatProcessor.new.filters_registered p &&
            !(([[0, 1, 0, 101]].map ProgramDescriptor.pid).contains p))).map
          FilterChange.Remove ∧
      (∀ p, p ≤ 0x1fff →
        regOut p = (([[0, 1, 0, 101]].map ProgramDescriptor.pid).contains p ||
          (PatProcessor.new.filters_registered p && p == 0x1fff))) :=
  ⟨rfl, by decide,
   pat_new_table_diff Nat Unit cpat0 PatProcessor.new ctxN 0 [0, 1, 0, 101]
     [[0, 1, 0, 101]] rfl (by decide)⟩

/-! ### C5: framing aborts -/

/-- The first byte of the packet window at `i` is byte `i` of the buffer. -/
theorem tsChunk_getD (buf : List Byte) (i : Nat) (h : i < buf.length) :
    (tsChunk buf i).getD 0 0 = buf.getD i 0 := by
  unfold tsChunk
  rw [List.getD, List.getD, List.get?_take (by simp [PACKET_SIZE]),
    List.get?_drop, Nat.add_zero]

/-- A dispatched event is *good*: its offset is a whole in-bounds packet,
and every 188-byte boundary up to and including it (that still has a whole
packet after it) carries the sync byte. -/
def GoodEv (buf : List Byte) (e : Nat × Nat × List Byte) : Prop :=
  e.1 + PACKET_SIZE ≤ buf.length ∧
  ∀ m, PACKET_SIZE * m ≤ e.1 → PACKET_SIZE * m + PACKET_SIZE ≤ buf.length →
    Packet.is_sync_byte (buf.getD (PACKET_SIZE * m) 0) = true

/-- Invariant of the same-PID inner loop: if the cursor starts on an
in-bounds packet boundary with all earlier boundaries sync-checked, every
event the loop appends is good, the cursor never retreats and stays on a
188-byte boundary, and (unless the loop executed `return`) all boundaries
up to the exit cursor that carry whole packets are sync. -/
theorem innerLoop_good (hooks : DemuxHooks F C) (buf : List Byte) (this_pid : Nat) :
    ∀ (proc : F) (ctx : DemuxCtx F C) (events : List (Nat × Nat × List Byte))
      (i : Nat) (pk : List Byte),
      i + PACKET_SIZE ≤ buf.length →
      PACKET_SIZE ∣ i →
      (∀ m, PACKET_SIZE * m ≤ i → PACKET_SIZE * m + PACKET_SIZE ≤ buf.length →
        Packet.is_sync_byte (buf.getD (PACKET_SIZE * m) 0) = true) →
      (∀ e ∈ events, GoodEv buf e) →
      (∀ e ∈ (innerLoop hooks buf this_pid proc ctx events i pk).events, GoodEv buf e) ∧
      i ≤ (innerLoop hooks buf this_pid proc ctx events i pk).i ∧
      PACKET_SIZE ∣ (innerLoop hooks buf this_pid proc ctx events i pk).i ∧
      ((innerLoop hooks buf this_pid proc ctx events i pk).ret = false →
        ∀ m, PACKET_SIZE * m ≤ (innerLoop hooks buf this_pid proc ctx events i pk).i →
          PACKET_SIZE * m + PACKET_SIZE ≤ buf.length →
          Packet.is_sync_byte (buf.getD (PACKET_SIZE * m) 0) = true) := by
  intro proc ctx events i pk
  induction proc, ctx, events, i, pk using innerLoop.induct hooks buf this_pid with
  | case1 proc ctx events i pk hemp h =>
    intro hisz hmul hsync hev
    rw [innerLoop]
    simp only [hemp, if_true, dif_pos h]
    refine ⟨?_, by omega, Dvd.dvd.add hmul dvd_rfl, ?_⟩
    · intro e he
      rw [List.mem_append] at he
      rcases he with he | he
      · exact hev e he
      · rw [List.mem_singleton] at he
        subst he
        exact ⟨hisz, hsync⟩
    · intro _ m hm hmlen
      refine hsync m ?_ hmlen
      obtain ⟨c, rfl⟩ := hmul
      simp only [PACKET_SIZE] at *
      omega
  | case2 proc ctx events i pk hemp h pk1 hsync1 =>
    intro hisz hmul hsync hev
    rw [innerLoop]
    simp only [hemp, if_true, dif_neg h, if_pos hsync1]
    refine ⟨?_, by omega, Dvd.dvd.add hmul dvd_rfl, ?_⟩
    · intro e he
      rw [List.mem_append] at he
      rcases he with he | he
      · exact hev e he
      · rw [List.mem_singleton] at he
        subst he
        exact ⟨hisz, hsync⟩
    · intro hfalse
      exact absurd hfalse (by simp)
  | case3 proc ctx events i pk hemp h pk1 hsync1 hpid =>
    intro hisz hmul hsync hev
    rw [innerLoop]
    simp only [hemp, if_true, dif_neg h, if_neg hsync1, if_pos hpid,
      Nat.add_sub_cancel]
    refine ⟨?_, le_rfl, hmul, fun _ => hsync⟩
    intro e he
    rw [List.mem_append] at he
    rcases he with he | he
    · exact hev e he
    · rw [List.mem_singleton] at he
      subst he
      exact ⟨hisz, hsync⟩
  | case4 proc ctx events i pk hemp pc events1 h pk1 hsync1 hpid ih =>
    intro hisz hmul hsync hev
    have hsync1' : Packet.is_sync_byte (buf.getD (i + PACKET_SIZE) 0) = true := by
      have := not_not.mp hsync1
      rwa [tsChunk_getD buf (i + PACKET_SIZE)
        (by simp only [PACKET_SIZE] at *; omega)] at this
    have hnext : ∀ m, PACKET_SIZE * m ≤ i + PACKET_SIZE →
        PACKET_SIZE * m + PACKET_SIZE ≤ buf.length →
        Packet.is_sync_byte (buf.getD (PACKET_SIZE * m) 0) = true := by
      intro m hm hmlen
      obtain ⟨c, rfl⟩ := hmul
      by_cases hc : m ≤ c
      · exact hsync m (Nat.mul_le_mul_left _ hc) hmlen
      · have : m = c + 1 := by
          simp only [PACKET_SIZE] at *
          omega
        subst this
        have heq : PACKET_SIZE * (c + 1) = PACKET_SIZE * c + PACKET_SIZE := by ring
        rw [heq]
        exact hsync1'
    have hev1 : ∀ e ∈ events ++ [(i, this_pid, pk)], GoodEv buf e := by
      intro e he
      rw [List.mem_append] at he
      rcases he with he | he
      · exact hev e he
      · rw [List.mem_singleton] at he
        subst he
        exact ⟨hisz, hsync⟩
    have hrec := ih (by simp only [PACKET_SIZE] at *; omega)
      (Dvd.dvd.add hmul dvd_rfl) hnext hev1
    rw [innerLoop]
    simp only [hemp, if_true, dif_neg h, if_neg hsync1, if_neg hpid]
    exact ⟨hrec.1, le_trans (Nat.le_add_right i PACKET_SIZE) hrec.2.1,
      hrec.2.2.1, hrec.2.2.2⟩
  | case5 proc ctx events i pk hemp =>
    intro hisz hmul hsync hev
    rw [innerLoop]
    simp only [hemp, Bool.false_eq_true, if_false]
    exact ⟨hev, le_rfl, hmul, fun _ => hsync⟩

/-- Invariant of the outer loop of `Demultiplex::push`: starting on a
188-byte boundary with all earlier whole-packet boundaries sync-checked,
every event in the final trace is good. -/
theorem pushLoop_events_good (hooks : DemuxHooks F C) (buf : List Byte) :
    ∀ (filters : Filters F) (ctx : DemuxCtx F C)
      (events : List (Nat × Nat × List Byte)) (i : Nat),
      PACKET_SIZE ∣ i →
      (∀ m, PACKET_SIZE * m + PACKET_SIZE ≤ buf.length → PACKET_SIZE * m < i →
        Packet.is_sync_byte (buf.getD (PACKET_SIZE * m) 0) = true) →
      (∀ e ∈ events, GoodEv buf e) →
      ∀ e ∈ (pushLoop hooks buf filters ctx events i).2.2, GoodEv buf e := by
  intro filters ctx events i
  induction filters, ctx, events, i using pushLoop.induct hooks buf with
  | case1 filters ctx events i hlen =>
    intro hmul hsync hev
    rw [pushLoop]
    simp only [dif_pos hlen]
    exact hev
  | case2 filters ctx events i hlen pk_buf hsyncT this_pid fc hget =>
    intro hmul hsync hev
    rw [pushLoop]
    simp only [dif_neg hlen, if_pos hsyncT]
    split
    · exact hev
    · rename_i proc1 heq
      have heq1 : fc.1.get this_pid = some proc1 := heq
      rw [hget] at heq1
      exact absurd heq1 (by simp)
  | case3 filters ctx events i hlen pk_buf hsyncT this_pid fc proc hget r hret =>
    intro hmul hsync hev
    have hsynci : Packet.is_sync_byte (buf.getD i 0) = true := by
      rw [← tsChunk_getD buf i (by simp only [PACKET_SIZE] at *; omega)]
      exact hsyncT
    have hle : ∀ m, PACKET_SIZE * m ≤ i → PACKET_SIZE * m + PACKET_SIZE ≤ buf.length →
        Packet.is_sync_byte (buf.getD (PACKET_SIZE * m) 0) = true := by
      intro m hm hmlen
      rcases Nat.lt_or_ge (PACKET_SIZE * m) i with hlt | hge
      · exact hsync m hmlen hlt
      · have heq : PACKET_SIZE * m = i := by omega
        rw [heq]
        exact hsynci
    have hinner := innerLoop_good hooks buf this_pid proc fc.2 events i pk_buf
      (by simp only [PACKET_SIZE] at *; omega) hmul hle hev
    rw [pushLoop]
    simp only [dif_neg hlen, if_pos hsyncT]
    have hgetE : (if filters.contains (Packet.pid (tsChunk buf i)) = true then (filters, ctx)
        else
          (filters.insert (Packet.pid (tsChunk buf i))
              (hooks.construct ctx.ctor (Packet.pid (tsChunk buf i))).2,
            ⟨ctx.changeset, (hooks.construct ctx.ctor (Packet.pid (tsChunk buf i))).1⟩)).1.get (Packet.pid (tsChunk buf i)) = some proc := hget
    rw [hgetE]
    dsimp only
    have hretE : (innerLoop hooks buf (Packet.pid (tsChunk buf i)) proc
        (if filters.contains (Packet.pid (tsChunk buf i)) = true then (filters, ctx)
        else
          (filters.insert (Packet.pid (tsChunk buf i))
              (hooks.construct ctx.ctor (Packet.pid (tsChunk buf i))).2,
            ⟨ctx.changeset, (hooks.construct ctx.ctor (Packet.pid (tsChunk buf i))).1⟩)).2 events i (tsChunk buf i)).ret = true := hret
    rw [if_pos hretE]
    exact hinner.1
  | case4 filters ctx events i hlen pk_buf hsyncT this_pid fc proc hget r filters1
      hret ap ih =>
    intro hmul hsync hev
    have hsynci : Packet.is_sync_byte (buf.getD i 0) = true := by
      rw [← tsChunk_getD buf i (by simp only [PACKET_SIZE] at *; omega)]
      exact hsyncT
    have hle : ∀ m, PACKET_SIZE * m ≤ i → PACKET_SIZE * m + PACKET_SIZE ≤ buf.length →
        Packet.is_sync_byte (buf.getD (PACKET_SIZE * m) 0) = true := by
      intro m hm hmlen
      rcases Nat.lt_or_ge (PACKET_SIZE * m) i with hlt | hge
      · exact hsync m hmlen hlt
      · have heq : PACKET_SIZE * m = i := by omega
        rw [heq]
        exact hsynci
    have hinner := innerLoop_good hooks buf this_pid proc fc.2 events i pk_buf
      (by simp only [PACKET_SIZE] at *; omega) hmul hle hev
    have hmul' : PACKET_SIZE ∣ r.i + PACKET_SIZE := Dvd.dvd.add hinner.2.2.1 dvd_rfl
    have hsync' : ∀ m, PACKET_SIZE * m + PACKET_SIZE ≤ buf.length →
        PACKET_SIZE * m < r.i + PACKET_SIZE →
        Packet.is_sync_byte (buf.getD (PACKET_SIZE * m) 0) = true := by
      intro m hmlen hmlt
      refine hinner.2.2.2 (by simpa using hret) m ?_ hmlen
      obtain ⟨c, hc⟩ := hinner.2.2.1
      rw [hc]
      rw [hc] at hmlt
      simp only [PACKET_SIZE] at *
      omega
    have hrest := ih hmul' hsync' hinner.1
    rw [pushLoop]
    simp only [dif_neg hlen, if_pos hsyncT]
    have hgetE : (if filters.contains (Packet.pid (tsChunk buf i)) = true then (filters, ctx)
        else
          (filters.insert (Packet.pid (tsChunk buf i))
              (hooks.construct ctx.ctor (Packet.pid (tsChunk buf i))).2,
            ⟨ctx.changeset, (hooks.construct ctx.ctor (Packet.pid (tsChunk buf i))).1⟩)).1.get (Packet.pid (tsChunk buf i)) = some proc := hget
    rw [hgetE]
    dsimp only
    have hretE : ¬ (innerLoop hooks buf (Packet.pid (tsChunk buf i)) proc
        (if filters.contains (Packet.pid (tsChunk buf i)) = true then (filters, ctx)
        else
          (filters.insert (Packet.pid (tsChunk buf i))
              (hooks.construct ctx.ctor (Packet.pid (tsChunk buf i))).2,
            ⟨ctx.changeset, (hooks.construct ctx.ctor (Packet.pid (tsChunk buf i))).1⟩)).2 events i (tsChunk buf i)).ret = true := hret
    rw [if_neg hretE]
    exact hrest
  | case5 filters ctx events i hlen pk_buf hsyncN =>
    intro hmul hsync hev
    rw [pushLoop]
    simp only [dif_neg hlen, if_neg hsyncN]
    exact hev

/-- C5: a non-sync byte at a 188-byte packet boundary aborts `push`
silently: a buffer whose first byte is not 0x47 produces zero handler
invocations and leaves the filter table and context untouched, and in
general no packet at or after any in-bounds boundary holding a non-sync
byte is ever dispatched to a handler. -/
theorem push_framing_abort (T U : Type) (hooks : DemuxHooks T U)
    (filters : Filters T) (ctx : DemuxCtx T U) (buf : List Byte) :
    (Packet.is_sync_byte (buf.getD 0 0) = false →
      Demultiplex.push hooks filters ctx buf = (filters, ctx, [])) ∧
    (∀ k, PACKET_SIZE * k + PACKET_SIZE ≤ buf.length →
      Packet.is_sync_byte (buf.getD (PACKET_SIZE * k) 0) = false →
      ∀ e ∈ (Demultiplex.push hooks filters ctx buf).2.2,
        e.1 < PACKET_SIZE * k) := by
  constructor
  · intro hbad
    rw [Demultiplex.push, pushLoop]
    split
    · rfl
    · rename_i hlen
      have hs : ¬ Packet.is_sync_byte ((tsChunk buf 0).getD 0 0) = true := by
        rw [tsChunk_getD buf 0 (by simp only [PACKET_SIZE] at *; omega), hbad]
        simp
      rw [if_neg hs]
  · intro k hk hbad e he
    have hg := pushLoop_events_good hooks buf filters ctx [] 0 (dvd_zero _)
      (fun m _ hm => absurd hm (by omega)) (by intro e h; cases h) e he
    by_contra hge
    push_neg at hge
    have hsynck := hg.2 k (by omega) hk
    rw [hsynck] at hbad
    cases hbad

/-- C5 witness: a 188-byte buffer starting with byte 0x00 dispatches
nothing and leaves the state untouched. -/
theorem push_framing_abort_witness :
    Packet.is_sync_byte ((List.replicate 188 0 : List Byte).getD 0 0) = false ∧
    Demultiplex.push edgeHooks (Filters.new) ctxN (List.replicate 188 0) =
      (Filters.new, ctxN, []) :=
  ⟨by decide,
   (push_framing_abort Nat Unit edgeHooks Filters.new ctxN (List.replicate 188 0)).1
     (by decide)⟩

/-! ### C1: same-PID batching loses a packet after a changeset edit -/

set_option maxRecDepth 4000 in
/-- C1, evaluated at the failing input: pushing two consecutive PID-0
packets through a PID-0 handler that enqueues a changeset edit on
`consume` (as the PAT handler does when a table completes) delivers only
the first packet — the buffer's PID-0 subsequence has two packets, so the
batching loop skipped one: after the edit ends the inner loop, the outer
loop advances the cursor a second time over the unconsumed packet. -/
theorem push_skips_packet_after_changeset_edit :
    (Demultiplex.push edgeHooks (Demultiplex.new edgeHooks ctxN).1
        (Demultiplex.new edgeHooks ctxN).2 c1buf).2.2 = [(0, 0, c1pkt)] ∧
    pidChunks 0 c1buf = [c1pkt, c1pkt] := by
  have h1 : innerLoop edgeHooks c1buf 0 0
      (⟨⟨[FilterChange.Insert 1 99]⟩, ()⟩ : DemuxCtx Nat Unit)
      [(0, 0, c1pkt)] PACKET_SIZE c1pkt =
      ⟨0, ⟨⟨[FilterChange.Insert 1 99]⟩, ()⟩, [(0, 0, c1pkt)], PACKET_SIZE, false⟩ := by
    rw [innerLoop, if_neg (by decide)]
  have h2 : innerLoop edgeHooks c1buf 0 0 (⟨⟨[]⟩, ()⟩ : DemuxCtx Nat Unit)
      [] 0 c1pkt =
      ⟨0, ⟨⟨[FilterChange.Insert 1 99]⟩, ()⟩, [(0, 0, c1pkt)], PACKET_SIZE, false⟩ := by
    rw [innerLoop, if_pos (by decide), dif_neg (by decide), if_neg (by decide),
      if_neg (by decide)]
    exact h1
  have h3 : pushLoop edgeHooks c1buf (⟨[some 0, some 99]⟩ : Filters Nat)
      (⟨⟨[]⟩, ()⟩ : DemuxCtx Nat Unit) [(0, 0, c1pkt)]
      (PACKET_SIZE + PACKET_SIZE) =
      (⟨[some 0, some 99]⟩, ⟨⟨[]⟩, ()⟩, [(0, 0, c1pkt)]) := by
    rw [pushLoop, dif_pos (by decide)]
  have h4 : pushLoop edgeHooks c1buf (⟨[some 0]⟩ : Filters Nat)
      (⟨⟨[]⟩, ()⟩ : DemuxCtx Nat Unit) [] 0 =
      (⟨[some 0, some 99]⟩, ⟨⟨[]⟩, ()⟩, [(0, 0, c1pkt)]) := by
    rw [pushLoop, dif_neg (by decide), if_pos (by decide)]
    rw [show tsChunk c1buf 0 = c1pkt from by decide]
    rw [show Packet.pid c1pkt = 0 from by decide]
    dsimp only
    rw [if_pos (by decide)]
    dsimp only
    rw [show (⟨[some 0]⟩ : Filters Nat).get 0 = some (0 : Nat) from by decide]
    dsimp only
    rw [h2]
    dsimp only
    rw [if_neg (by decide), if_neg (by decide)]
    exact h3
  constructor
  · have h4' : pushLoop edgeHooks c1buf (Demultiplex.new edgeHooks ctxN).1
        (Demultiplex.new edgeHooks ctxN).2 [] 0 =
        (⟨[some 0, some 99]⟩, ⟨⟨[]⟩, ()⟩, [(0, 0, c1pkt)]) := h4
    rw [Demultiplex.push, h4']
  · rw [pidChunks, tsChunks, dif_neg (by decide), tsChunks, dif_neg (by decide),
      tsChunks, dif_pos (by decide)]
    decide
